import Mathlib

/-!
Shallow embedding of the exonum-auction service core (src/schema.rs, src/tx.rs,
src/api.rs, src/lib.rs) and proofs about its transaction executor.

Machine integers: the Rust code stores balances, bid amounts and minimum bids
as u64.  Arithmetic is embedded on Nat with explicit wrap-around modulo 2^64,
the release-build semantics of Rust unsigned arithmetic; where a subtraction
can underflow we additionally reason about the underflow condition itself.
Public keys and hashes are embedded as Nat (they are only ever compared for
equality and used as map keys).  The ProofMapIndex / ProofListIndex containers
are embedded as total functions from keys to Option-values / lists.
-/

namespace Auction

/-- Modulus of 64-bit unsigned arithmetic, 2^64. -/
def U64M : Nat := 18446744073709551616

/-- Wrapping 64-bit addition (Rust u64 addition in a release build). -/
def add64 (a b : Nat) : Nat := (a + b) % U64M

/-- Wrapping 64-bit subtraction (Rust u64 subtraction in a release build). -/
def sub64 (a b : Nat) : Nat := (a + (U64M - b % U64M)) % U64M

/-- Error codes returned by the service transactions (src/tx.rs, enum Error). -/
inductive Err where
  | WalletAlreadyExists
  | LotNotFound
  | BidTooLow
  | InsufficientCurrencyAmount
  | WalletNotFound
  | BiddingNotAllowedOnOwnLot
deriving DecidableEq, Repr

/-- Numeric code of each error, the repr(u8) discriminants of src/tx.rs. -/
def Err.code : Err → Nat
  | .WalletAlreadyExists => 0
  | .LotNotFound => 1
  | .BidTooLow => 2
  | .InsufficientCurrencyAmount => 3
  | .WalletNotFound => 4
  | .BiddingNotAllowedOnOwnLot => 5

/-- Wallet record stored in the database (src/schema.rs, encoding_struct Wallet). -/
structure Wallet where
  pub_key : Nat
  name : String
  balance : Nat
  frozen : Nat
deriving DecidableEq, Repr

/-- Lot record (src/schema.rs, encoding_struct Lot). -/
structure Lot where
  owner : Nat
  name : String
  min_bid : Nat
  tx_hash : Nat
deriving DecidableEq, Repr

/-- Bid record (src/schema.rs, encoding_struct Bid). -/
structure Bid where
  owner : Nat
  amount : Nat
  tx_hash : Nat
deriving DecidableEq, Repr

/-- Wallet::freeze (src/schema.rs): checks balance - frozen >= amount using
u64 subtraction, then moves amount from balance to frozen. -/
def Wallet.freeze (w : Wallet) (amount : Nat) : Except Err Wallet :=
  if sub64 w.balance w.frozen ≥ amount then
    .ok ⟨w.pub_key, w.name, sub64 w.balance amount, add64 w.frozen amount⟩
  else
    .error Err.InsufficientCurrencyAmount

/-- Wallet::release (src/schema.rs): releases min(frozen, amount) back to balance. -/
def Wallet.release (w : Wallet) (amount : Nat) : Wallet :=
  let actual_amount := if w.frozen ≤ amount then w.frozen else amount
  ⟨w.pub_key, w.name, add64 w.balance actual_amount, sub64 w.frozen actual_amount⟩

/-- State of the service schema: the three containers of src/schema.rs
(wallets ProofMapIndex, lots ProofMapIndex, bid_history ProofListIndex family). -/
structure AuctionState where
  wallets : Nat → Option Wallet
  lots : Nat → Option Lot
  bid_history : Nat → List Bid

/-- The empty database. -/
def initState : AuctionState := ⟨fun _ => none, fun _ => none, fun _ => []⟩

/-- Schema::last_bid (src/schema.rs): last bid of a lot's history, none if the
lot does not exist. -/
def last_bid (s : AuctionState) (id : Nat) : Option Bid :=
  match s.lots id with
  | some _ => (s.bid_history id).getLast?
  | none => none

/-- Schema::create_wallet (src/schema.rs): insert a wallet with frozen = 0. -/
def create_wallet (s : AuctionState) (key : Nat) (name : String) (balance : Nat) :
    AuctionState :=
  { s with wallets := fun k => if k = key then some ⟨key, name, balance, 0⟩ else s.wallets k }

/-- Schema::create_lot (src/schema.rs): insert a lot keyed by the creating
transaction's hash, which is also stored in the lot's tx_hash field. -/
def create_lot (s : AuctionState) (owner : Nat) (name : String) (min_bid : Nat)
    (hash : Nat) : AuctionState :=
  { s with lots := fun k => if k = hash then some ⟨owner, name, min_bid, hash⟩ else s.lots k }

/-- First half of Schema::place_bid (src/schema.rs, the match on last_bid):
if the lot has a last bid whose owner still has a wallet, reject amounts not
above that bid and otherwise release the previous escrow. -/
def place_bid_release (s : AuctionState) (lot amount : Nat) : Except Err AuctionState :=
  match last_bid s lot with
  | some bid =>
    match s.wallets bid.owner with
    | some wallet =>
      if amount ≤ bid.amount then
        .error Err.BidTooLow
      else
        .ok { s with wallets := fun k =>
                if k = bid.owner then some (wallet.release bid.amount) else s.wallets k }
    | none => .ok s
  | none => .ok s

/-- Second half of Schema::place_bid: look up the bidder's wallet after the
release step, freeze the amount, push the bid and store the updated wallet.
Note the source builds the bid as Bid::new(owner, amount, lot), so the lot key
is what ends up in the bid's tx_hash field. -/
def place_bid (s : AuctionState) (owner lot amount : Nat) : Except Err AuctionState :=
  match place_bid_release s lot amount with
  | .error e => .error e
  | .ok s1 =>
    match s1.wallets owner with
    | none => .error Err.InsufficientCurrencyAmount
    | some val =>
      match val.freeze amount with
      | .error e => .error e
      | .ok w =>
        .ok { s1 with
              bid_history := fun k =>
                if k = lot then s1.bid_history lot ++ [⟨owner, amount, lot⟩]
                else s1.bid_history k,
              wallets := fun k => if k = owner then some w else s1.wallets k }

/-- The wallet value Wallet::freeze is invoked on when Schema::place_bid
reaches its freeze step (the bidder's wallet as looked up after the release
phase); none if the release phase fails or the bidder has no wallet. -/
def place_bid_freeze_input (s : AuctionState) (owner lot amount : Nat) : Option Wallet :=
  match place_bid_release s lot amount with
  | .ok s1 => s1.wallets owner
  | .error _ => none

/-- Schema::state_hash (src/schema.rs) / Service::state_hash (src/lib.rs):
a one-element vector holding the merkle root of the wallets index only.  The
merkle-root computation itself is host-runtime cryptography, embedded as a
parameter. -/
def state_hash (merkle_root : (Nat → Option Wallet) → Nat) (s : AuctionState) : List Nat :=
  [merkle_root s.wallets]

/-- The three service transactions (src/tx.rs).  CreateLot and PlaceBid carry
the host-assigned identifier (self.hash()) of the transaction message. -/
inductive Tx where
  | CreateWallet (pub_key : Nat) (name : String) (balance : Nat)
  | CreateLot (owner : Nat) (name : String) (min_bid : Nat) (hash : Nat)
  | PlaceBid (owner : Nat) (lot : Nat) (amount : Nat) (hash : Nat)

/-- The Transaction::execute implementations of src/tx.rs, acting on a fork. -/
def execute (s : AuctionState) : Tx → Except Err AuctionState
  | .CreateWallet pub_key name balance =>
    match s.wallets pub_key with
    | none => .ok (create_wallet s pub_key name balance)
    | some _ => .error Err.WalletAlreadyExists
  | .CreateLot owner name min_bid hash =>
    match s.wallets owner with
    | none => .error Err.WalletNotFound
    | some _ => .ok (create_lot s owner name min_bid hash)
  | .PlaceBid owner lotid amount _hash =>
    match s.lots lotid with
    | none => .error Err.LotNotFound
    | some lot =>
      if lot.min_bid > amount then .error Err.BidTooLow
      else if lot.owner = owner then .error Err.BiddingNotAllowedOnOwnLot
      else place_bid s owner lot.tx_hash amount

/-- Modelled from the spec: commit of one transaction.  The fork's writes are
committed on success and discarded as a unit on failure (spec section 4.1, the
all-or-nothing fork contract provided by the host ledger runtime; the fork
implementation itself is not part of src/). -/
def apply_tx (s : AuctionState) (t : Tx) : AuctionState :=
  match execute s t with
  | .ok s1 => s1
  | .error _ => s

/-- Committed state after a sequence of transactions. -/
def run (s : AuctionState) (txs : List Tx) : AuctionState := txs.foldl apply_tx s

/-- True when every transaction in the list executes successfully in turn. -/
def run_ok (s : AuctionState) : List Tx → Bool
  | [] => true
  | t :: ts =>
    match execute s t with
    | .ok s1 => run_ok s1 ts
    | .error _ => false

/-- Modelled from the spec: well-formedness of a delivered transaction.  The
u64 wire fields are below 2^64, and a CreateLot's identifier is fresh (the
host delivers deduplicated transactions with collision-free hashes, spec
sections 1 and 4; hash computation is not part of src/). -/
def TxWF (s : AuctionState) : Tx → Prop
  | .CreateWallet _ _ balance => balance < U64M
  | .CreateLot _ _ min_bid hash => min_bid < U64M ∧ s.lots hash = none ∧ s.bid_history hash = []
  | .PlaceBid _ _ amount _ => amount < U64M

/-- States reachable from the empty database by committing well-formed
transactions one at a time. -/
inductive Reachable : AuctionState → Prop where
  | init : Reachable initState
  | step {s : AuctionState} {t : Tx} : Reachable s → TxWF s t → Reachable (apply_tx s t)

/-- Host interactions of PublicApi::post_transaction_sync (src/api.rs), in
program order: the transaction is sent to the host pipeline, then the
subscription to the block pub-sub channel is created, then the loop blocks
receiving sealed-block heights. -/
inductive SyncEvent where
  | send
  | subscribe
  | recvWait
deriving DecidableEq, Repr

/-- Program order of the host interactions in post_transaction_sync:
state.sender().send(transaction) comes first, rx.subscribe() second, the
recv() wait loop last (src/api.rs lines 101-117). -/
def post_transaction_sync_events : List SyncEvent :=
  [SyncEvent.send, SyncEvent.subscribe, SyncEvent.recvWait]

/-! Concrete scenarios.  Wallet 1 owns the lots, wallets 2 and 3 bid.
Lot identifiers are the hashes of the CreateLot transactions (10 and 11);
90, 91, 99 are hashes of PlaceBid transactions. -/

/-- Scenario: wallet 2 (initial balance 100) bids 30 on lot 10, leaving it
with balance 70 and frozen 30. -/
def oneBidTxs : List Tx :=
  [Tx.CreateWallet 1 ("o") 100, Tx.CreateWallet 2 ("w") 100,
   Tx.CreateLot 1 ("a") 10 10, Tx.CreateLot 1 ("b") 10 11,
   Tx.PlaceBid 2 10 30 90]

/-- Committed state of the oneBidTxs scenario. -/
def oneBidState : AuctionState := run initState oneBidTxs

/-- Scenario: wallet 2 (initial balance 100) bids 60 on lot 10, leaving it
with balance 40 and frozen 60, so frozen exceeds balance. -/
def bigBidTxs : List Tx :=
  [Tx.CreateWallet 1 ("o") 100, Tx.CreateWallet 2 ("w") 100,
   Tx.CreateLot 1 ("a") 10 10, Tx.CreateLot 1 ("b") 10 11,
   Tx.PlaceBid 2 10 60 90]

/-- Committed state of the bigBidTxs scenario. -/
def bigBidState : AuctionState := run initState bigBidTxs

/-- Scenario for conservation: after bigBidTxs, wallet 2 also bids 50 on
lot 11; every transaction in the list succeeds under wrapping semantics. -/
def conservTxs : List Tx :=
  [Tx.CreateWallet 1 ("o") 100, Tx.CreateWallet 2 ("w") 100,
   Tx.CreateLot 1 ("a") 10 10, Tx.CreateLot 1 ("b") 10 11,
   Tx.PlaceBid 2 10 60 90, Tx.PlaceBid 2 11 50 91]

/-- Scenario: a first bid exactly at the lot minimum (10 on a lot with
min_bid 10), placed by the PlaceBid transaction whose hash is 99. -/
def minBidTxs : List Tx :=
  [Tx.CreateWallet 1 ("o") 100, Tx.CreateLot 1 ("l") 10 10,
   Tx.CreateWallet 2 ("w") 100, Tx.PlaceBid 2 10 10 99]

/-- Committed state of the minBidTxs scenario. -/
def minBidState : AuctionState := run initState minBidTxs

/-- Scenario: lot 10 has an active bid of 50 by wallet 2; wallet 3 has only
balance 10, so its bid of 60 fails at the freeze step. -/
def escrowTxs : List Tx :=
  [Tx.CreateWallet 1 ("o") 100, Tx.CreateLot 1 ("l") 10 10,
   Tx.CreateWallet 2 ("w") 100, Tx.CreateWallet 3 ("p") 10,
   Tx.PlaceBid 2 10 50 90]

/-- Committed state of the escrowTxs scenario. -/
def escrowState : AuctionState := run initState escrowTxs

/-- State with one wallet (key 1) and one lot (key 10, min_bid 10, owner 1)
and no bids; bidder 2 has no wallet here. -/
def lotOnlyState : AuctionState :=
  run initState [Tx.CreateWallet 1 ("o") 100, Tx.CreateLot 1 ("l") 10 10]

/-- Inductive invariant of reachable states: lots are self-referential
(tx_hash is the lot's own key), bids exist only for existing lots, every
recorded bidder still has a wallet, per-lot bid amounts are strictly
increasing, and the first bid of a lot is at least the lot's minimum bid. -/
def Inv (s : AuctionState) : Prop :=
  (∀ k l, s.lots k = some l → l.tx_hash = k) ∧
  (∀ k, s.bid_history k ≠ [] → s.lots k ≠ none) ∧
  (∀ k b, b ∈ s.bid_history k → s.wallets b.owner ≠ none) ∧
  (∀ k, List.Chain' (fun a b : Bid => a.amount < b.amount) (s.bid_history k)) ∧
  (∀ k l b, s.lots k = some l → (s.bid_history k).head? = some b → l.min_bid ≤ b.amount)

/-! Helper lemmas. -/

/-- Members of a list reached through getLast?. -/
lemma mem_of_getLastSome {α : Type} {l : List α} {a : α} (h : l.getLast? = some a) :
    a ∈ l := by
  induction l with
  | nil => cases h
  | cons x xs ih =>
    cases xs with
    | nil => simp_all [List.getLast?]
    | cons y ys =>
      rw [List.getLast?_cons_cons] at h
      exact List.mem_cons_of_mem x (ih h)

/-- Case analysis on a successful release phase of place_bid. -/
lemma place_bid_release_cases {s : AuctionState} {key amount : Nat} {s1 : AuctionState}
    (h : place_bid_release s key amount = .ok s1) :
    s1.lots = s.lots ∧ s1.bid_history = s.bid_history ∧
    ((s1 = s ∧ (last_bid s key = none ∨
        ∃ pb : Bid, last_bid s key = some pb ∧ s.wallets pb.owner = none)) ∨
      (∃ pb wal, last_bid s key = some pb ∧ s.wallets pb.owner = some wal ∧
        pb.amount < amount ∧
        s1.wallets = fun k => if k = pb.owner then some (wal.release pb.amount)
          else s.wallets k)) := by
  cases hl : last_bid s key with
  | none =>
    simp only [place_bid_release, hl] at h
    cases h
    exact ⟨rfl, rfl, Or.inl ⟨rfl, Or.inl rfl⟩⟩
  | some pb =>
    cases hpw : s.wallets pb.owner with
    | none =>
      simp only [place_bid_release, hl, hpw] at h
      cases h
      exact ⟨rfl, rfl, Or.inl ⟨rfl, Or.inr ⟨pb, rfl, hpw⟩⟩⟩
    | some wal =>
      simp only [place_bid_release, hl, hpw] at h
      by_cases hle : amount ≤ pb.amount
      · rw [if_pos hle] at h; cases h
      · rw [if_neg hle] at h
        cases h
        exact ⟨rfl, rfl, Or.inr ⟨pb, wal, rfl, hpw, by omega, rfl⟩⟩

/-- Decomposition of a successful place_bid. -/
lemma place_bid_ok_cases {s : AuctionState} {owner key amount : Nat} {s' : AuctionState}
    (h : place_bid s owner key amount = .ok s') :
    ∃ s1 val w, place_bid_release s key amount = .ok s1 ∧
      s1.wallets owner = some val ∧ val.freeze amount = .ok w ∧
      s'.lots = s1.lots ∧
      s'.wallets = (fun k => if k = owner then some w else s1.wallets k) ∧
      s'.bid_history =
        (fun k => if k = key then s1.bid_history key ++ [⟨owner, amount, key⟩]
          else s1.bid_history k) := by
  cases hr : place_bid_release s key amount with
  | error e => simp only [place_bid, hr] at h; cases h
  | ok s1 =>
    cases hv : s1.wallets owner with
    | none => simp only [place_bid, hr, hv] at h; cases h
    | some val =>
      cases hf : val.freeze amount with
      | error e => simp only [place_bid, hr, hv, hf] at h; cases h
      | ok w =>
        simp only [place_bid, hr, hv, hf] at h
        cases h
        exact ⟨s1, val, w, rfl, hv, hf, rfl, rfl, rfl⟩

/-- Decomposition of a successful PlaceBid execution. -/
lemma execute_place_bid_ok {s : AuctionState} {owner lotid amount txh : Nat}
    {s' : AuctionState}
    (h : execute s (Tx.PlaceBid owner lotid amount txh) = .ok s') :
    ∃ lot : Lot, s.lots lotid = some lot ∧ ¬ lot.min_bid > amount ∧ lot.owner ≠ owner ∧
      place_bid s owner lot.tx_hash amount = .ok s' := by
  cases hl : s.lots lotid with
  | none => simp only [execute, hl] at h; cases h
  | some lot =>
    simp only [execute, hl] at h
    by_cases hmin : lot.min_bid > amount
    · rw [if_pos hmin] at h; cases h
    · rw [if_neg hmin] at h
      by_cases hown : lot.owner = owner
      · rw [if_pos hown] at h; cases h
      · rw [if_neg hown] at h
        exact ⟨lot, rfl, hmin, hown, h⟩

/-- The empty database satisfies the invariant. -/
lemma inv_init : Inv initState := by
  refine ⟨fun k l hl => ?_, fun k hne => ?_, fun k b hb => ?_, fun k => ?_,
    fun k l b hl hb => ?_⟩
  · cases hl
  · exact absurd rfl hne
  · cases hb
  · simp [initState]
  · cases hb

/-- One committed transaction preserves the invariant. -/
lemma inv_apply {s : AuctionState} {t : Tx} (hs : Inv s) (hwf : TxWF s t) :
    Inv (apply_tx s t) := by
  obtain ⟨I1, I2, I3, I4, I5⟩ := hs
  unfold apply_tx
  cases he : execute s t with
  | error e => exact ⟨I1, I2, I3, I4, I5⟩
  | ok s' =>
    cases t with
    | CreateWallet key name balance =>
      cases hk : s.wallets key with
      | some w => simp only [execute, hk] at he; cases he
      | none =>
        simp only [execute, hk] at he
        cases he
        refine ⟨I1, I2, fun k b hb => ?_, I4, I5⟩
        by_cases hko : b.owner = key
        · simp [create_wallet, hko]
        · simp only [create_wallet, if_neg hko]
          exact I3 k b hb
    | CreateLot owner name min_bid hash =>
      obtain ⟨hbnd, hfl, hfb⟩ := hwf
      cases hk : s.wallets owner with
      | none => simp only [execute, hk] at he; cases he
      | some w =>
        simp only [execute, hk] at he
        cases he
        refine ⟨fun k l hl => ?_, fun k hne => ?_, I3, I4, fun k l b hl hb => ?_⟩
        · by_cases hkh : k = hash
          · subst hkh
            simp only [create_lot, if_pos rfl] at hl
            cases hl
            rfl
          · simp only [create_lot, if_neg hkh] at hl
            exact I1 k l hl
        · by_cases hkh : k = hash
          · subst hkh; simp [create_lot]
          · simp only [create_lot, if_neg hkh]
            exact I2 k hne
        · by_cases hkh : k = hash
          · have hbe : s.bid_history k = [] := by rw [hkh]; exact hfb
            have hb2 : (s.bid_history k).head? = some b := hb
            rw [hbe] at hb2
            cases hb2
          · simp only [create_lot, if_neg hkh] at hl
            exact I5 k l b hl hb
    | PlaceBid owner lotid amount txh =>
      obtain ⟨lot, hlot, hmin, hown, hpb⟩ := execute_place_bid_ok he
      have hkey : lot.tx_hash = lotid := I1 lotid lot hlot
      rw [hkey] at hpb
      obtain ⟨s1, val, w, hr, hv, hf, hlots', hwall', hbids'⟩ := place_bid_ok_cases hpb
      obtain ⟨hl1, hb1, hcases⟩ := place_bid_release_cases hr
      have hmono : ∀ k0, s.wallets k0 ≠ none → s1.wallets k0 ≠ none := by
        intro k0 hk0
        rcases hcases with ⟨heq, _⟩ | ⟨pb, wal, _, _, _, hw1⟩
        · rw [heq]; exact hk0
        · rw [hw1]
          by_cases hk : k0 = pb.owner
          · simp [hk]
          · simp only [if_neg hk]; exact hk0
      have hlast : ∀ x : Bid, (s.bid_history lotid).getLast? = some x →
          x.amount < amount := by
        intro x hx
        have hxw : s.wallets x.owner ≠ none := I3 lotid x (mem_of_getLastSome hx)
        have hlb : last_bid s lotid = some x := by simp [last_bid, hlot, hx]
        rcases hcases with ⟨heq, hnone | ⟨pb, hpbeq, hpw⟩⟩ | ⟨pb, wal, hpbeq, hpw, hlt, hw1⟩
        · rw [hlb] at hnone; cases hnone
        · rw [hlb] at hpbeq
          injection hpbeq with hpbeq
          rw [← hpbeq] at hpw
          exact absurd hpw hxw
        · rw [hlb] at hpbeq
          injection hpbeq with hpbeq
          rw [← hpbeq] at hlt
          exact hlt
      refine ⟨fun k l hl => ?_, fun k hne => ?_, fun k b hb => ?_, fun k => ?_,
        fun k l b hl hb => ?_⟩
      · rw [hlots', hl1] at hl
        exact I1 k l hl
      · rw [hlots', hl1]
        by_cases hk : k = lotid
        · subst hk; rw [hlot]; simp
        · rw [hbids'] at hne
          simp only [if_neg hk, hb1] at hne
          exact I2 k hne
      · rw [hbids'] at hb
        rw [hwall']
        by_cases hbo : b.owner = owner
        · simp [hbo]
        · simp only [if_neg hbo]
          apply hmono
          by_cases hk : k = lotid
          · subst hk
            simp only [eq_self_iff_true, if_true, hb1] at hb
            rcases List.mem_append.mp hb with hold | hnew
            · exact I3 _ b hold
            · simp only [List.mem_singleton] at hnew
              rw [hnew] at hbo
              exact absurd rfl hbo
          · simp only [if_neg hk, hb1] at hb
            exact I3 k b hb
      · rw [hbids']
        by_cases hk : k = lotid
        · subst hk
          simp only [eq_self_iff_true, if_true, hb1]
          rw [List.chain'_append]
          refine ⟨I4 _, by simp, ?_⟩
          intro x hx y hy
          simp only [List.head?_cons, Option.mem_def, Option.some.injEq] at hy
          rw [← hy]
          exact hlast x (Option.mem_def.mp hx)
        · simp only [if_neg hk, hb1]
          exact I4 k
      · rw [hlots', hl1] at hl
        rw [hbids'] at hb
        by_cases hk : k = lotid
        · subst hk
          simp only [eq_self_iff_true, if_true, hb1] at hb
          have hll : l = lot := Option.some.inj (hl.symm.trans hlot)
          subst hll
          cases hemp : s.bid_history k with
          | nil =>
            rw [hemp] at hb
            simp only [List.nil_append, List.head?_cons, Option.some.injEq] at hb
            rw [← hb]
            exact Nat.not_lt.mp hmin
          | cons x xs =>
            rw [hemp] at hb
            rw [List.head?_append_of_ne_nil (x :: xs) (by simp)] at hb
            refine I5 k l b hl ?_
            rw [hemp]
            exact hb
        · simp only [if_neg hk, hb1] at hb
          exact I5 k l b hl hb

/-- Every reachable state satisfies the invariant. -/
lemma reachable_inv {s : AuctionState} (h : Reachable s) : Inv s := by
  induction h with
  | init => exact inv_init
  | step hr hwf ih => exact inv_apply ih hwf

/-- The minBidTxs scenario is reachable (all its transactions are well formed). -/
lemma reachable_minBidState : Reachable minBidState := by
  show Reachable (apply_tx (apply_tx (apply_tx (apply_tx initState
    (Tx.CreateWallet 1 ("o") 100)) (Tx.CreateLot 1 ("l") 10 10))
    (Tx.CreateWallet 2 ("w") 100)) (Tx.PlaceBid 2 10 10 99))
  refine Reachable.step (Reachable.step (Reachable.step (Reachable.step
    Reachable.init ?_) ?_) ?_) ?_
  · show (100 : Nat) < U64M
    decide
  · exact ⟨by decide, rfl, rfl⟩
  · show (100 : Nat) < U64M
    decide
  · show (10 : Nat) < U64M
    decide

/-! Claim theorems. -/

/-- C1 (code evaluated at the failing input): in the reachable state
oneBidState, wallet 2 has balance 70 and frozen 30; a bid of 50 on lot 11
satisfies the lot, minimum-bid and own-lot preconditions and 50 is at most the
balance field, yet the executor fails with InsufficientCurrencyAmount, because
Wallet::freeze tests balance - frozen >= amount instead of the claimed
balance >= amount. -/
theorem freeze_rejects_sufficient_balance :
    oneBidState.wallets 2 = some ⟨2, "w", 70, 30⟩ ∧
    oneBidState.lots 11 = some ⟨1, "b", 10, 11⟩ ∧
    (50 : Nat) ≤ 70 ∧
    execute oneBidState (Tx.PlaceBid 2 11 50 91) =
      .error Err.InsufficientCurrencyAmount :=
  ⟨by decide, by decide, by decide, rfl⟩

/-- C2 (code evaluated at the failing input): wallet 2 is created with balance
100 and frozen 0, every transaction of conservTxs executes successfully, yet
afterwards wallet 2 holds balance 2^64 - 10 and frozen 110, so
balance + frozen is 2^64 + 100, not the initial 100: the wrapping subtraction
in Wallet::freeze lets the sixth transaction pass its funds check and corrupt
the balance. -/
theorem conservation_broken_by_wrap :
    (run initState [Tx.CreateWallet 1 ("o") 100, Tx.CreateWallet 2 ("w") 100]).wallets 2 =
      some ⟨2, "w", 100, 0⟩ ∧
    run_ok initState conservTxs = true ∧
    (run initState conservTxs).wallets 2 = some ⟨2, "w", U64M - 10, 110⟩ ∧
    (U64M - 10) + 110 ≠ 100 :=
  ⟨by decide, by decide, by decide, by decide⟩

/-- C3: from a state whose lot has an active (last) bid pb by a bidder whose
wallet is wprev, a PlaceBid that fails with InsufficientCurrencyAmount leaves
the committed state unchanged and in particular the previous bidder's wallet,
even though the discarded fork had already applied the escrow release (third
conjunct: the release phase succeeded and had overwritten wprev with its
released version). -/
theorem insufficient_bid_rolls_back (s : AuctionState) (owner lotid amount txh : Nat)
    (lot : Lot) (pb : Bid) (wprev : Wallet)
    (hlot : s.lots lotid = some lot) (hkey : lot.tx_hash = lotid)
    (hlast : (s.bid_history lotid).getLast? = some pb)
    (hw : s.wallets pb.owner = some wprev)
    (hfail : execute s (Tx.PlaceBid owner lotid amount txh) =
      .error Err.InsufficientCurrencyAmount) :
    apply_tx s (Tx.PlaceBid owner lotid amount txh) = s ∧
    (apply_tx s (Tx.PlaceBid owner lotid amount txh)).wallets pb.owner = some wprev ∧
    place_bid_release s lotid amount =
      .ok { s with wallets := fun k =>
              if k = pb.owner then some (wprev.release pb.amount) else s.wallets k } := by
  have happ : apply_tx s (Tx.PlaceBid owner lotid amount txh) = s := by
    simp [apply_tx, hfail]
  have hlb : last_bid s lotid = some pb := by
    simp [last_bid, hlot, hlast]
  refine ⟨happ, by rw [happ, hw], ?_⟩
  simp only [execute, hlot] at hfail
  split at hfail
  · cases hfail
  · split at hfail
    · cases hfail
    · rw [hkey] at hfail
      unfold place_bid place_bid_release at hfail
      rw [hlb] at hfail
      by_cases hle : amount ≤ pb.amount
      · exfalso
        simp [hw, hle] at hfail
      · unfold place_bid_release
        rw [hlb]
        simp [hw, hle]

/-- C3 (witness): wallet 2 holds the active bid of 50 on lot 10 in
escrowState; wallet 3 (balance 10) bids 60, which fails with
InsufficientCurrencyAmount, and the committed state, including wallet 2's
escrow, is unchanged while the discarded fork had released it. -/
theorem insufficient_bid_rolls_back_witness :
    apply_tx escrowState (Tx.PlaceBid 3 10 60 91) = escrowState ∧
    (apply_tx escrowState (Tx.PlaceBid 3 10 60 91)).wallets 2 = some ⟨2, "w", 50, 50⟩ ∧
    place_bid_release escrowState 10 60 =
      .ok { escrowState with wallets := fun k =>
              if k = 2 then some (Wallet.release ⟨2, "w", 50, 50⟩ 50)
              else escrowState.wallets k } :=
  insufficient_bid_rolls_back escrowState 3 10 60 91 ⟨1, "l", 10, 10⟩ ⟨2, 50, 10⟩
    ⟨2, "w", 50, 50⟩ rfl rfl rfl rfl rfl

/-- C4 (counterexample): the minBidTxs scenario is reachable and every
transaction in it succeeds, yet the first bid on lot 10 has amount 10, equal
to and not strictly above the lot's minimum bid 10 - refuting the claim that
the first bid's amount strictly exceeds the lot's minimum. -/
theorem first_bid_equals_minimum :
    run_ok initState minBidTxs = true ∧
    Reachable minBidState ∧
    minBidState.lots 10 = some ⟨1, "l", 10, 10⟩ ∧
    minBidState.bid_history 10 = [⟨2, 10, 10⟩] ∧
    ¬ (⟨1, "l", 10, 10⟩ : Lot).min_bid < (⟨2, 10, 10⟩ : Bid).amount :=
  ⟨by decide, reachable_minBidState, by decide, by decide, by decide⟩

/-- C4 (amended): in every reachable state, each lot's bid sequence is
strictly increasing in amount, and the first bid's amount is at least (not
necessarily strictly above) the lot's minimum bid. -/
theorem bid_sequences_monotone {s : AuctionState} (hs : Reachable s) :
    (∀ k, List.Chain' (fun a b : Bid => a.amount < b.amount) (s.bid_history k)) ∧
    (∀ k l b, s.lots k = some l → (s.bid_history k).head? = some b →
      l.min_bid ≤ b.amount) := by
  obtain ⟨_, _, _, I4, I5⟩ := reachable_inv hs
  exact ⟨I4, I5⟩

/-- C4 (witness): the amended monotonicity applied to the reachable state
minBidState and its lot 10. -/
theorem bid_sequences_monotone_witness :
    List.Chain' (fun a b : Bid => a.amount < b.amount) (minBidState.bid_history 10) ∧
    ((⟨1, "l", 10, 10⟩ : Lot).min_bid ≤ (⟨2, 10, 10⟩ : Bid).amount) :=
  ⟨(bid_sequences_monotone reachable_minBidState).1 10,
   (bid_sequences_monotone reachable_minBidState).2 10 ⟨1, "l", 10, 10⟩ ⟨2, 10, 10⟩
     rfl rfl⟩

/-- C5 (code evaluated at the failing input): the PlaceBid transaction with
hash 99 appends a bid whose tx_hash field is 10 - the lot's identifier - and
not 99, the identifier of the PlaceBid transaction that created it. -/
theorem bid_records_lot_id :
    run_ok initState minBidTxs = true ∧
    minBidTxs.getLast? = some (Tx.PlaceBid 2 10 10 99) ∧
    minBidState.bid_history 10 = [⟨2, 10, 10⟩] ∧
    (⟨2, 10, 10⟩ : Bid).tx_hash = 10 ∧
    (⟨2, 10, 10⟩ : Bid).tx_hash ≠ 99 :=
  ⟨by decide, rfl, by decide, by decide, by decide⟩

/-- C6: PlaceBid checks its preconditions in order - missing lot gives
LotNotFound; existing lot with amount below the minimum gives BidTooLow
regardless of the owner; existing lot, amount at least the minimum and bidder
equal to the lot owner gives BiddingNotAllowedOnOwnLot - and in each case the
committed state is unchanged. -/
theorem place_bid_checks_order (s : AuctionState) (owner lotid amount txh : Nat) :
    (s.lots lotid = none →
      execute s (Tx.PlaceBid owner lotid amount txh) = .error Err.LotNotFound ∧
      apply_tx s (Tx.PlaceBid owner lotid amount txh) = s) ∧
    (∀ lot : Lot, s.lots lotid = some lot → lot.min_bid > amount →
      execute s (Tx.PlaceBid owner lotid amount txh) = .error Err.BidTooLow ∧
      apply_tx s (Tx.PlaceBid owner lotid amount txh) = s) ∧
    (∀ lot : Lot, s.lots lotid = some lot → ¬ lot.min_bid > amount → lot.owner = owner →
      execute s (Tx.PlaceBid owner lotid amount txh) = .error Err.BiddingNotAllowedOnOwnLot ∧
      apply_tx s (Tx.PlaceBid owner lotid amount txh) = s) := by
  refine ⟨fun h => ?_, fun lot hlot hmin => ?_, fun lot hlot hmin hown => ?_⟩
  · simp [execute, apply_tx, h]
  · simp [execute, apply_tx, hlot, hmin]
  · simp [execute, apply_tx, hlot, hmin, hown]

/-- C6 (witness): the three error cases evaluated concretely: missing lot 5 in
the empty database, bid 5 below minimum 10 on lot 10, and owner 1 bidding on
its own lot 10. -/
theorem place_bid_checks_order_witness :
    execute initState (Tx.PlaceBid 2 5 10 99) = .error Err.LotNotFound ∧
    execute lotOnlyState (Tx.PlaceBid 2 10 5 99) = .error Err.BidTooLow ∧
    execute lotOnlyState (Tx.PlaceBid 1 10 10 99) =
      .error Err.BiddingNotAllowedOnOwnLot ∧
    apply_tx lotOnlyState (Tx.PlaceBid 2 10 5 99) = lotOnlyState := by
  refine ⟨?_, ?_, ?_, ?_⟩
  · exact ((place_bid_checks_order initState 2 5 10 99).1 rfl).1
  · exact ((place_bid_checks_order lotOnlyState 2 10 5 99).2.1
      ⟨1, "l", 10, 10⟩ rfl (by decide)).1
  · exact ((place_bid_checks_order lotOnlyState 1 10 10 99).2.2
      ⟨1, "l", 10, 10⟩ rfl (by decide) rfl).1
  · exact ((place_bid_checks_order lotOnlyState 2 10 5 99).2.1
      ⟨1, "l", 10, 10⟩ rfl (by decide)).2

/-- C7: a PlaceBid whose preconditions pass but whose bidder has no wallet
fails with InsufficientCurrencyAmount (code 3) and not WalletNotFound, while a
CreateLot whose owner has no wallet fails with WalletNotFound (code 4). -/
theorem missing_wallet_error_codes (s : AuctionState) (owner lotid amount txh : Nat)
    (lot : Lot)
    (hlot : s.lots lotid = some lot) (hmin : ¬ lot.min_bid > amount)
    (hown : lot.owner ≠ owner) (hw : s.wallets owner = none)
    (hlast : ∀ pb : Bid, last_bid s lot.tx_hash = some pb → pb.amount < amount) :
    execute s (Tx.PlaceBid owner lotid amount txh) = .error Err.InsufficientCurrencyAmount ∧
    Err.code Err.InsufficientCurrencyAmount = 3 ∧
    execute s (Tx.PlaceBid owner lotid amount txh) ≠ .error Err.WalletNotFound ∧
    (∀ (name : String) (min_bid hash : Nat),
      execute s (Tx.CreateLot owner name min_bid hash) = .error Err.WalletNotFound) ∧
    Err.code Err.WalletNotFound = 4 := by
  have hmain : execute s (Tx.PlaceBid owner lotid amount txh) =
      .error Err.InsufficientCurrencyAmount := by
    simp only [execute, hlot, if_neg hmin, if_neg hown]
    unfold place_bid place_bid_release
    cases hl : last_bid s lot.tx_hash with
    | none => simp [hw]
    | some pb =>
      cases hpw : s.wallets pb.owner with
      | none => simp [hpw, hw]
      | some wal =>
        have hgt : pb.amount < amount := hlast pb hl
        have hne : pb.owner ≠ owner := fun he => by rw [he, hw] at hpw; cases hpw
        have hne2 : ¬ owner = pb.owner := fun he => hne he.symm
        simp [hpw, hw, hne2, show ¬ amount ≤ pb.amount by omega]
  refine ⟨hmain, rfl, ?_, fun name min_bid hash => ?_, rfl⟩
  · rw [hmain]; simp
  · simp [execute, hw]

/-- C7 (witness): in lotOnlyState, bidder 2 has no wallet: its bid of 10 on
lot 10 fails with code 3 (InsufficientCurrencyAmount) and its CreateLot fails
with code 4 (WalletNotFound). -/
theorem missing_wallet_error_codes_witness :
    execute lotOnlyState (Tx.PlaceBid 2 10 10 99) =
      .error Err.InsufficientCurrencyAmount ∧
    Err.code Err.InsufficientCurrencyAmount = 3 ∧
    execute lotOnlyState (Tx.CreateLot 2 ("x") 5 77) = .error Err.WalletNotFound ∧
    Err.code Err.WalletNotFound = 4 := by
  have h := missing_wallet_error_codes lotOnlyState 2 10 10 99 ⟨1, "l", 10, 10⟩
    rfl (by decide) (by decide) rfl (fun pb hpb => nomatch hpb)
  exact ⟨h.1, h.2.1, h.2.2.2.1 ("x") 5 77, h.2.2.2.2⟩

/-- C8 (counterexample): in the program-order trace of post_transaction_sync
the subscription event does not precede the send-to-pipeline event. -/
theorem subscribe_not_before_send :
    ¬ List.indexOf SyncEvent.subscribe post_transaction_sync_events <
        List.indexOf SyncEvent.send post_transaction_sync_events := by decide

/-- C8 (amended): in the blocking submission path the transaction is handed to
the host pipeline first and the subscription to the commit notifier's channel
is created only afterwards, so a block sealed between submission and
subscription can be missed. -/
theorem subscribe_after_send :
    List.indexOf SyncEvent.send post_transaction_sync_events <
      List.indexOf SyncEvent.subscribe post_transaction_sync_events := by decide

/-- C9 (code evaluated at the failing input): the reachable state bigBidState
has wallet 2 with balance 40 and frozen 60, so frozen exceeds balance; a
further bid of 50 on lot 11 reaches the freeze step with exactly that wallet,
where the u64 subtraction balance - frozen underflows (40 < 60); under
wrapping it evaluates to 2^64 - 20, so the spurious funds check even lets the
transaction succeed. -/
theorem freeze_subtraction_underflows :
    run_ok initState bigBidTxs = true ∧
    bigBidState.wallets 2 = some ⟨2, "w", 40, 60⟩ ∧
    place_bid_freeze_input bigBidState 2 11 50 = some ⟨2, "w", 40, 60⟩ ∧
    (⟨2, "w", 40, 60⟩ : Wallet).balance < (⟨2, "w", 40, 60⟩ : Wallet).frozen ∧
    sub64 40 60 = U64M - 20 ∧
    (execute bigBidState (Tx.PlaceBid 2 11 50 91)).isOk = true :=
  ⟨by decide, by decide, rfl, by decide, by decide, by decide⟩

/-- C10: the published digest is a one-element list containing only the merkle
root of the wallets container, for every root function: states with equal
wallet containers have equal digests, and committing a CreateLot (which
touches only the lots container) never changes the digest. -/
theorem state_hash_covers_only_wallets
    (merkle_root : (Nat → Option Wallet) → Nat) (s s' : AuctionState)
    (h : s.wallets = s'.wallets) :
    state_hash merkle_root s = state_hash merkle_root s' ∧
    (state_hash merkle_root s).length = 1 ∧
    (∀ owner name min_bid hash,
      state_hash merkle_root (apply_tx s (Tx.CreateLot owner name min_bid hash)) =
        state_hash merkle_root s) := by
  refine ⟨by simp [state_hash, h], rfl, ?_⟩
  intro owner name min_bid hash
  unfold apply_tx
  cases hw : s.wallets owner with
  | none => simp [execute, hw]
  | some w => simp [execute, hw, state_hash, create_lot]

/-- C10 (witness): the digest of lotOnlyState under a concrete root function
is unchanged by adding lot 11, and has length one. -/
theorem state_hash_covers_only_wallets_witness :
    state_hash (fun _ => 7) lotOnlyState =
      state_hash (fun _ => 7) (create_lot lotOnlyState 1 ("m") 5 11) ∧
    (state_hash (fun _ => 7) lotOnlyState).length = 1 ∧
    state_hash (fun _ => 7) (apply_tx lotOnlyState (Tx.CreateLot 1 ("m") 5 11)) =
      state_hash (fun _ => 7) lotOnlyState := by
  have h := state_hash_covers_only_wallets (fun _ => 7) lotOnlyState
    (create_lot lotOnlyState 1 ("m") 5 11) rfl
  exact ⟨h.1, h.2.1, h.2.2 1 ("m") 5 11⟩

end Auction
